import Mathlib

/-!
# Verification of the Power-Automate-Alternative lead pipeline

Shallow embedding of the deduplicating Google-Sheets merge
(`src/google_sheets_service.py`), the bi-weekly schedule gate
(`src/email_processor.py`) and the CSV attachment processor
(`src/csv_processor.py`), together with theorems settling the frozen
claims about them.

Conventions: Python strings are Lean `String`s (sheet cells) or
`List Char` (the CSV byte pipeline); sheet rows are `List String`;
attachment bytes are `List Nat` (each < 256 in practice).  Text
operations (`lower`, `strip`) are modelled on their ASCII behaviour,
which covers every string the claims touch.
-/

/-! ## Google Sheets deduplicating merge (`google_sheets_service.py`) -/

/-- ASCII lower-casing of one character (embeds Python `str.lower` on the
ASCII range, which is all the header heuristic ever meets). -/
def lowerChar (c : Char) : Char :=
  if 'A' ≤ c ∧ c ≤ 'Z' then Char.ofNat (c.toNat + 32) else c

/-- Lower-cased character list of a cell. -/
def lowerStr (s : String) : List Char :=
  s.toList.map lowerChar

/-- `needle` occurs as a contiguous run inside `hay` (Python `in` on str). -/
def containsSeq (needle : List Char) : List Char → Bool
  | [] => needle.isEmpty
  | c :: rest => needle.isPrefixOf (c :: rest) || containsSeq needle rest

/-- One cell of the header heuristic:
`'lead' in str(cell).lower() or 'id' in str(cell).lower()`
(line 447 of `google_sheets_service.py`). -/
def isHeaderCell (cell : String) : Bool :=
  containsSeq "lead".toList (lowerStr cell) || containsSeq "id".toList (lowerStr cell)

/-- Python `max(unique_columns)`; the caller guarantees a non-empty list,
for which `foldl max` with the head as seed is exactly `max`. -/
def maxKey : List Nat → Nat
  | [] => 0
  | i :: is => is.foldl Nat.max i

/-- The uniqueness key of a row:
`tuple(str(row[i]) if i < len(row) else '' for i in unique_columns)`
(lines 453 and 461). -/
def keyOf (uc : List Nat) (row : List String) : List String :=
  uc.map (fun i => row.getD i "")

/-- Seeding of one existing row into the seen-key set (lines 452-455):
rows not longer than the maximum key column are skipped, and so are the
falsy key `()` and the key `('',)`. -/
def rowSeedKey (uc : List Nat) (row : List String) : Option (List String) :=
  if maxKey uc < row.length then
    let k := keyOf uc row
    if k ≠ [] ∧ k ≠ [""] then some k else none
  else none

/-- The header heuristic on the first existing row (lines 446-447):
`any('lead' in str(cell).lower() or 'id' in str(cell).lower()
     for cell in row if len(row) > max(unique_columns))`.
The generator guard does not depend on the cell, so the whole test is
"the row is longer than the maximum key column AND some cell anywhere in
the row matches". -/
def rowIsHeader (uc : List Nat) (row : List String) : Bool :=
  decide (maxKey uc < row.length) && row.any isHeaderCell

/-- The seen-key set built from the existing destination rows
(lines 443-455).  The first row is dropped exactly when there is more
than one existing row and `rowIsHeader` holds of it; every row then goes
through `rowSeedKey`.  Sets are modelled as lists: only membership is
ever consulted. -/
def seenFromExisting (uc : List Nat) : List (List String) → List (List String)
  | [] => []
  | r0 :: rest =>
    let tailKeys := rest.filterMap (rowSeedKey uc)
    if rest ≠ [] ∧ rowIsHeader uc r0 = true then tailKeys
    else (rowSeedKey uc r0).toList ++ tailKeys

/-- The incoming-batch filter (lines 458-464): keep a row when its key is
unseen, and record the key so later batch rows dedup against it.  No
length guard and no empty-key guard is applied to incoming rows. -/
def filterNew (uc : List Nat) (seen : List (List String)) : List (List String) → List (List String)
  | [] => []
  | r :: rs =>
    let k := keyOf uc r
    if k ∈ seen then filterNew uc seen rs
    else r :: filterNew uc (k :: seen) rs

/-- `if not unique_columns: unique_columns = [0]` (lines 435-436). -/
def effUc (uc0 : List Nat) : List Nat :=
  if uc0 = [] then [0] else uc0

/-- `get_existing_data` (lines 388-416): an `HttpError` from the Sheets
API is caught and surfaces as the empty row list. -/
def get_existing_data (fetch : Except Unit (List (List String))) : List (List String) :=
  match fetch with
  | .ok v => v
  | .error _ => []

/-- The rows that survive dedup filtering (`new_data` of lines 458-464),
computed from the existing destination content. -/
def mergeResult (existing data : List (List String)) (uc0 : List Nat) : List (List String) :=
  filterNew (effUc uc0) (seenFromExisting (effUc uc0) existing) data

/-- `append_data_without_duplicates` (lines 418-478): result is the
returned boolean together with the rows actually written.  `fetch` is
the outcome of the Sheets read, `appendOk` the outcome of the Sheets
append (`append_data_to_sheet` returns `False` on `HttpError`).  When
nothing survives filtering the function returns `True` without calling
the append at all. -/
def append_data_without_duplicates (fetch : Except Unit (List (List String)))
    (appendOk : Bool) (data : List (List String)) (uc0 : List Nat) :
    Bool × List (List String) :=
  let existing := get_existing_data fetch
  let nd := mergeResult existing data uc0
  if nd = [] then (true, [])
  else if appendOk then (true, nd) else (false, [])

/-- Destination content after one successful run: the existing rows
followed by the surviving batch rows. -/
def destAfter (dest data : List (List String)) (uc0 : List Nat) : List (List String) :=
  dest ++ mergeResult dest data uc0

/-- The header test as the spec words it for claim C4: some cell *at a
key column position* matches the heuristic.  (The code instead looks at
every cell of the row; this definition exists only to be compared with
`rowIsHeader`.) -/
def specKeyColumnHeader (uc : List Nat) (row : List String) : Bool :=
  uc.any (fun i => isHeaderCell (row.getD i ""))

/-! ## Bi-weekly schedule gate (`email_processor.py`) -/

/-- Weekday of the day `daysDiff` days after the reference Tuesday
2025-09-30 (Python `date.weekday()`: Monday = 0, so the reference has
weekday 1; weekdays advance by one per day, modulo 7). -/
def weekdayOf (daysDiff : Int) : Int :=
  (1 + daysDiff).fmod 7

/-- `is_target_tuesday` (lines 111-130), with "today" represented by its
signed day offset from the reference Tuesday.  Python `//` is floor
division (`Int.fdiv`) and `%` has the divisor's sign (`Int.fmod`). -/
def is_target_tuesday (daysDiff : Int) : Bool :=
  if weekdayOf daysDiff ≠ 1 then false
  else (daysDiff.fdiv 7).fmod 2 = 0

/-- `should_check_emails` (lines 132-154): target Tuesday and the clock
reads exactly 11:20 or 12:00. -/
def should_check_emails (daysDiff : Int) (hour minute : Nat) : Bool :=
  if ¬ is_target_tuesday daysDiff then false
  else if hour = 11 ∧ minute = 20 then true
  else if hour = 12 ∧ minute = 0 then true
  else false

/-! ## CSV attachment processing (`csv_processor.py`) -/

/-- Lower bound of the first continuation byte after a three-byte lead
(E0 forbids overlong encodings). -/
def lo3 (b : Nat) : Nat := if b = 0xE0 then 0xA0 else 0x80

/-- Upper bound of the first continuation byte after a three-byte lead
(ED forbids surrogates). -/
def hi3 (b : Nat) : Nat := if b = 0xED then 0x9F else 0xBF

/-- Lower bound of the first continuation byte after a four-byte lead
(F0 forbids overlong encodings). -/
def lo4 (b : Nat) : Nat := if b = 0xF0 then 0x90 else 0x80

/-- Upper bound of the first continuation byte after a four-byte lead
(F4 caps code points at U+10FFFF). -/
def hi4 (b : Nat) : Nat := if b = 0xF4 then 0x8F else 0xBF

/-- One-pass strict UTF-8 decoder with CPython's `errors='ignore'`
recovery.  The state carries a pending multi-byte sequence as
`(need, acc, lo, hi)`: `need` continuation bytes are still missing, the
code point accumulated so far is `acc`, and the next byte must lie in
`[lo, hi]`.  On a byte outside that range CPython drops the pending
lead (plus the continuations already consumed) and rereads the
offending byte as a fresh lead, which is inlined below; a sequence
truncated by the end of input is likewise dropped. -/
def decAux : Option (Nat × Nat × Nat × Nat) → List Nat → List Char
  | _, [] => []
  | st, b :: rest =>
    match st with
    | some (need, acc, lo, hi) =>
      if lo ≤ b ∧ b ≤ hi then
        if need = 1 then Char.ofNat (acc * 64 + (b - 0x80)) :: decAux none rest
        else decAux (some (need - 1, acc * 64 + (b - 0x80), 0x80, 0xBF)) rest
      else
        -- the pending sequence is dropped; `b` is reread as a lead byte
        if b < 0x80 then Char.ofNat b :: decAux none rest
        else if b < 0xC2 then decAux none rest
        else if b < 0xE0 then decAux (some (1, b - 0xC0, 0x80, 0xBF)) rest
        else if b < 0xF0 then decAux (some (2, b - 0xE0, lo3 b, hi3 b)) rest
        else if b < 0xF5 then decAux (some (3, b - 0xF0, lo4 b, hi4 b)) rest
        else decAux none rest
    | none =>
      if b < 0x80 then Char.ofNat b :: decAux none rest
      else if b < 0xC2 then decAux none rest
      else if b < 0xE0 then decAux (some (1, b - 0xC0, 0x80, 0xBF)) rest
      else if b < 0xF0 then decAux (some (2, b - 0xE0, lo3 b, hi3 b)) rest
      else if b < 0xF5 then decAux (some (3, b - 0xF0, lo4 b, hi4 b)) rest
      else decAux none rest

/-- `csv_data.decode('utf-8', errors='ignore')` (line 33 of
`csv_processor.py`): strict UTF-8 decoding where every maximal invalid
sequence is dropped from the output. -/
def decodeUtf8Ignore (l : List Nat) : List Char :=
  decAux none l

/-- `csv_text.replace('\r', '')` (line 37): removing every occurrence of
a single character is a filter. -/
def removeCR (l : List Char) : List Char :=
  l.filter (fun c => c ≠ '\r')

/-- `csv_text.replace('""', '"')` (line 38): left-to-right,
non-overlapping replacement of two double quotes by one. -/
def collapseDoubleQuote : List Char → List Char
  | '"' :: '"' :: rest => '"' :: collapseDoubleQuote rest
  | c :: rest => c :: collapseDoubleQuote rest
  | [] => []

/-- `csv_text.split('\n')` (line 41): Python `str.split` with an explicit
separator keeps empty pieces; the empty text yields one empty piece. -/
def splitOnNL : List Char → List (List Char)
  | [] => [[]]
  | c :: rest =>
    let r := splitOnNL rest
    if c = '\n' then [] :: r
    else (c :: r.headD []) :: r.tail

/-- A character Python `str.strip()` removes (ASCII whitespace). -/
def isPySpace (c : Char) : Bool :=
  c = ' ' || c = '\t' || c = '\n' || c = '\r' || c = '\x0b' || c = '\x0c'

/-- `line.strip()` on the ASCII range. -/
def stripChars (l : List Char) : List Char :=
  ((l.dropWhile isPySpace).reverse.dropWhile isPySpace).reverse

/-- Parser state of CPython's `csv.reader` field scanner (excel dialect:
delimiter `,`, quote `"`, doubled quotes, no escape character, not
strict). -/
inductive CsvState where
  | startField
  | inField
  | inQuoted
  | quoteInQuoted
deriving DecidableEq

/-- One line through CPython's `csv.reader` state machine; `cur` holds
the current field reversed.  At the end of the line the current field is
emitted. -/
def csvAux (st : CsvState) (cur : List Char) : List Char → List (List Char)
  | [] => [cur.reverse]
  | c :: rest =>
    match st with
    | .startField =>
      if c = '"' then csvAux .inQuoted cur rest
      else if c = ',' then cur.reverse :: csvAux .startField [] rest
      else csvAux .inField (c :: cur) rest
    | .inField =>
      if c = ',' then cur.reverse :: csvAux .startField [] rest
      else csvAux .inField (c :: cur) rest
    | .inQuoted =>
      if c = '"' then csvAux .quoteInQuoted cur rest
      else csvAux .inQuoted (c :: cur) rest
    | .quoteInQuoted =>
      if c = '"' then csvAux .inQuoted ('"' :: cur) rest
      else if c = ',' then cur.reverse :: csvAux .startField [] rest
      else csvAux .inField (c :: cur) rest

/-- `next(csv.reader(StringIO(row_text)))` for a single line (line 88 of
`csv_processor.py`).  On empty input the reader yields no row at all
(`StopIteration`); callers only pass non-empty lines, and we render that
case as the empty field list. -/
def parseCsvLine (l : List Char) : List (List Char) :=
  if l = [] then [] else csvAux .startField [] l

/-- The fixed 7-field record built by `_process_csv_row` (lines 94-102),
fields in the source's positional order. -/
structure LeadRecord where
  leadCreationDate : List Char
  inquiryDate : List Char
  communityName : List Char
  classification : List Char
  totalLeads : List Char
  subSourceName : List Char
  sourceName : List Char
deriving DecidableEq

/-- `while len(fields) < 7: fields.append('')` (lines 91-92). -/
def padTo7 (fields : List (List Char)) : List (List Char) :=
  fields ++ List.replicate (7 - fields.length) []

/-- `_process_csv_row` (lines 71-108): parse the line, pad the field list
to at least 7 entries, and build the record from the first seven fields,
each stripped.  (The local `cleaned_row` of line 85 is computed by the
source and never used, so it has no counterpart here.) -/
def process_csv_row (line : List Char) : LeadRecord :=
  let fields := padTo7 (parseCsvLine line)
  { leadCreationDate := stripChars (fields.getD 0 [])
    inquiryDate := stripChars (fields.getD 1 [])
    communityName := stripChars (fields.getD 2 [])
    classification := stripChars (fields.getD 3 [])
    totalLeads := stripChars (fields.getD 4 [])
    subSourceName := stripChars (fields.getD 5 [])
    sourceName := stripChars (fields.getD 6 []) }

/-- The record's 7 fields in positional order. -/
def recFields (r : LeadRecord) : List (List Char) :=
  [r.leadCreationDate, r.inquiryDate, r.communityName, r.classification,
   r.totalLeads, r.subSourceName, r.sourceName]

/-- `process_csv_attachment` (lines 21-69): decode ignoring bad bytes,
drop carriage returns, collapse doubled quotes, split on newlines, drop
the header line when there is more than one line, cap at `maxRows`
lines, keep the stripped non-blank lines, and build a record per line.
(`_process_csv_row` never raises on a non-empty line and always returns
a truthy 7-key dict, so the per-row `try`/`if row_data` of lines 55-59
keep every record.) -/
def process_csv_attachment (maxRows : Nat) (csvData : List Nat) : List LeadRecord :=
  let text := decodeUtf8Ignore csvData
  let text := removeCR text
  let text := collapseDoubleQuote text
  let lines := splitOnNL text
  let lines := if 1 < lines.length then lines.tail else lines
  let lines := lines.take maxRows
  let lines := lines.filterMap (fun l =>
    let s := stripChars l
    if s = [] then none else some s)
  lines.map process_csv_row

/-- ASCII byte list of a concrete attachment (all claim inputs are
ASCII). -/
def strBytes (s : String) : List Nat :=
  s.toList.map Char.toNat

/-! ## Helper lemmas about the merge -/

theorem effUc_ne_nil (uc0 : List Nat) : effUc uc0 ≠ [] := by
  unfold effUc
  split <;> simp_all

theorem keyOf_length (uc : List Nat) (row : List String) :
    (keyOf uc row).length = uc.length := by
  simp [keyOf]

theorem rowSeedKey_of_valid (uc : List Nat) (row : List String)
    (hne : uc ≠ []) (hlen : maxKey uc < row.length)
    (hkey : keyOf uc row ≠ [""]) :
    rowSeedKey uc row = some (keyOf uc row) := by
  have hnil : keyOf uc row ≠ [] := by
    intro h
    have := keyOf_length uc row
    rw [h] at this
    exact hne (List.length_eq_zero.mp this.symm)
  simp [rowSeedKey, hlen, hnil, hkey]

theorem rowSeedKey_ne_some_empty (uc : List Nat) (row : List String) :
    rowSeedKey uc row ≠ some [""] := by
  by_cases h1 : maxKey uc < row.length
  · by_cases h2 : keyOf uc row ≠ [] ∧ keyOf uc row ≠ [""]
    · simp only [rowSeedKey, if_pos h1, if_pos h2]
      exact fun he => h2.2 (Option.some.inj he)
    · simp [rowSeedKey, h1, h2]
  · simp [rowSeedKey, h1]

theorem mem_seenFromExisting (uc : List Nat) (dest : List (List String))
    (k : List String) (hk : k ∈ seenFromExisting uc dest) :
    ∃ row, rowSeedKey uc row = some k := by
  match dest with
  | [] => simp [seenFromExisting] at hk
  | r0 :: rest =>
    simp only [seenFromExisting] at hk
    split at hk
    · obtain ⟨row, _, hrow⟩ := List.mem_filterMap.mp hk
      exact ⟨row, hrow⟩
    · rcases List.mem_append.mp hk with h | h
      · cases h0 : rowSeedKey uc r0 with
        | none => rw [h0] at h; simp at h
        | some a =>
          rw [h0] at h
          simp at h
          exact ⟨r0, by rw [h0, h]⟩
      · obtain ⟨row, _, hrow⟩ := List.mem_filterMap.mp h
        exact ⟨row, hrow⟩

theorem empty_key_not_seen (uc : List Nat) (dest : List (List String)) :
    [""] ∉ seenFromExisting uc dest := by
  intro h
  obtain ⟨row, hrow⟩ := mem_seenFromExisting uc dest [""] h
  exact rowSeedKey_ne_some_empty uc row hrow

theorem filterNew_subset (uc : List Nat) (data : List (List String)) :
    ∀ (seen : List (List String)) (r : List String),
      r ∈ filterNew uc seen data → r ∈ data := by
  induction data with
  | nil => intro seen r h; simp [filterNew] at h
  | cons a rs ih =>
    intro seen r h
    by_cases hk : keyOf uc a ∈ seen
    · simp only [filterNew, if_pos hk] at h
      exact List.mem_cons_of_mem a (ih seen r h)
    · simp only [filterNew, if_neg hk] at h
      rcases List.mem_cons.mp h with h | h
      · exact h ▸ List.mem_cons_self a rs
      · exact List.mem_cons_of_mem a (ih _ r h)

theorem filterNew_eq_nil_of_seen (uc : List Nat) (data : List (List String))
    (seen : List (List String)) (h : ∀ r ∈ data, keyOf uc r ∈ seen) :
    filterNew uc seen data = [] := by
  induction data with
  | nil => rfl
  | cons a rs ih =>
    have ha : keyOf uc a ∈ seen := h a (List.mem_cons_self a rs)
    simp only [filterNew, if_pos ha]
    exact ih (fun r hr => h r (List.mem_cons_of_mem a hr))

theorem filterNew_key_covered (uc : List Nat) (data : List (List String)) :
    ∀ (seen : List (List String)) (r : List String), r ∈ data →
      keyOf uc r ∈ seen ∨
        ∃ r' ∈ filterNew uc seen data, keyOf uc r = keyOf uc r' := by
  induction data with
  | nil => intro seen r h; simp at h
  | cons a rs ih =>
    intro seen r hr
    by_cases hk : keyOf uc a ∈ seen
    · simp only [filterNew, if_pos hk]
      rcases List.mem_cons.mp hr with h | h
      · exact Or.inl (h ▸ hk)
      · exact ih seen r h
    · simp only [filterNew, if_neg hk]
      rcases List.mem_cons.mp hr with h | h
      · subst h
        exact Or.inr ⟨r, List.mem_cons_self r _, rfl⟩
      · rcases ih (keyOf uc a :: seen) r h with h2 | ⟨r', hr', he⟩
        · rcases List.mem_cons.mp h2 with h3 | h3
          · exact Or.inr ⟨a, List.mem_cons_self a _, h3⟩
          · exact Or.inl h3
        · exact Or.inr ⟨r', List.mem_cons_of_mem a hr', he⟩

theorem seenFromExisting_append (uc : List Nat) (r0 r1 : List String)
    (rest nd : List (List String)) :
    seenFromExisting uc (r0 :: r1 :: (rest ++ nd)) =
      seenFromExisting uc (r0 :: r1 :: rest) ++ nd.filterMap (rowSeedKey uc) := by
  by_cases h : rowIsHeader uc r0 = true <;>
    simp [seenFromExisting, h, List.filterMap_append] <;>
    rw [← List.cons_append, List.filterMap_append]

/-! ## Claim C1: idempotence of the deduplicating merge -/

/-- C1 counterexample: the merge is not idempotent as claimed.  With an
empty destination, key column 0 and the single batch row `[""]`, the
first run appends the row, but the second run appends it again: the
row's key `('',)` is never seeded from the existing rows (the code's
empty-key guard skips it), yet incoming rows are not guarded, so the
destination grows on every run. -/
theorem dedup_merge_not_idempotent :
    destAfter [] [[""]] [0] = [[""]] ∧
    mergeResult (destAfter [] [[""]] [0]) [[""]] [0] = [[""]] ∧
    destAfter (destAfter [] [[""]] [0]) [[""]] [0] = [[""], [""]] := by
  decide

/-- C1 (amended): running `append_data_without_duplicates` twice with
the identical batch appends zero rows the second time and leaves the
destination unchanged, provided the destination already holds at least
two rows (so the header heuristic makes the same decision on both
runs), every batch row is longer than the maximum key column index (so
its appended copy is not skipped as too short when reseeding), and no
batch row has the degenerate key `('',)` (which is never seeded). -/
theorem dedup_merge_idempotent (dest data : List (List String)) (uc0 : List Nat)
    (hlen : 2 ≤ dest.length)
    (hrows : ∀ r ∈ data, maxKey (effUc uc0) < r.length)
    (hkeys : ∀ r ∈ data, keyOf (effUc uc0) r ≠ [""]) :
    mergeResult (destAfter dest data uc0) data uc0 = [] ∧
    destAfter (destAfter dest data uc0) data uc0 = destAfter dest data uc0 := by
  have hmain : mergeResult (destAfter dest data uc0) data uc0 = [] := by
    match dest, hlen with
    | r0 :: r1 :: rest, _ =>
      show mergeResult
        ((r0 :: r1 :: rest) ++ mergeResult (r0 :: r1 :: rest) data uc0) data uc0 = []
      unfold mergeResult
      rw [show (r0 :: r1 :: rest) ++
            filterNew (effUc uc0) (seenFromExisting (effUc uc0) (r0 :: r1 :: rest)) data
          = r0 :: r1 :: (rest ++
            filterNew (effUc uc0) (seenFromExisting (effUc uc0) (r0 :: r1 :: rest)) data)
        from rfl]
      rw [seenFromExisting_append]
      apply filterNew_eq_nil_of_seen
      intro r hr
      apply List.mem_append.mpr
      rcases filterNew_key_covered (effUc uc0) data
          (seenFromExisting (effUc uc0) (r0 :: r1 :: rest)) r hr with h | ⟨r', hr', he⟩
      · exact Or.inl h
      · right
        have hr'd : r' ∈ data := filterNew_subset (effUc uc0) data _ r' hr'
        have hseed : rowSeedKey (effUc uc0) r' = some (keyOf (effUc uc0) r') :=
          rowSeedKey_of_valid _ _ (effUc_ne_nil uc0) (hrows r' hr'd) (hkeys r' hr'd)
        rw [he]
        exact List.mem_filterMap.mpr ⟨r', hr', hseed⟩
  refine ⟨hmain, ?_⟩
  show destAfter dest data uc0 ++ mergeResult (destAfter dest data uc0) data uc0 =
    destAfter dest data uc0
  rw [hmain, List.append_nil]

/-- Witness for C1 (amended) at a concrete input: destination
`[["h"], ["a"]]`, batch `[["b"], ["a"]]`, key column 0. -/
theorem dedup_merge_idempotent_witness :
    mergeResult (destAfter [["h"], ["a"]] [["b"], ["a"]] [0]) [["b"], ["a"]] [0] = [] ∧
    destAfter (destAfter [["h"], ["a"]] [["b"], ["a"]] [0]) [["b"], ["a"]] [0] =
      destAfter [["h"], ["a"]] [["b"], ["a"]] [0] :=
  dedup_merge_idempotent [["h"], ["a"]] [["b"], ["a"]] [0]
    (by decide) (by decide) (by decide)

/-! ## Claim C2: error reporting of the merge -/

/-- C2 counterexample: a failure fetching the existing destination
content is NOT reported as a boolean `False`.  `get_existing_data`
swallows the `HttpError` and returns `[]`, so the merge proceeds against
an empty seen-set and the call returns `True` (appending the batch). -/
theorem fetch_failure_reports_success :
    append_data_without_duplicates (Except.error ()) true [["a"]] [0] = (true, [["a"]]) := by
  decide

/-- C2 (amended): `append_data_without_duplicates` is total (nothing
escapes its boundary); a fetch failure surfaces as an empty existing-row
list, so it is NOT reported as `False` — the merge proceeds; the call
returns `False` exactly when some rows survive filtering and the append
fails; and when no rows survive it returns `True` with zero rows
written. -/
theorem append_error_reporting (fetch : Except Unit (List (List String)))
    (appendOk : Bool) (data : List (List String)) (uc0 : List Nat) :
    get_existing_data (Except.error ()) = ([] : List (List String)) ∧
    ((append_data_without_duplicates fetch appendOk data uc0).1 = false ↔
      appendOk = false ∧ mergeResult (get_existing_data fetch) data uc0 ≠ []) ∧
    (mergeResult (get_existing_data fetch) data uc0 = [] →
      append_data_without_duplicates fetch appendOk data uc0 = (true, [])) := by
  refine ⟨rfl, ?_, ?_⟩
  · unfold append_data_without_duplicates
    by_cases h : mergeResult (get_existing_data fetch) data uc0 = []
    · simp [h]
    · cases appendOk <;> simp [h]
  · intro h
    unfold append_data_without_duplicates
    simp [h]

/-- Witness for C2 (amended): with destination `[["a"], ["b"]]` and
batch `[["a"]]` nothing survives filtering, so even a failing append
reports `True` with zero rows written. -/
theorem append_error_reporting_witness :
    append_data_without_duplicates (Except.ok [["a"], ["b"]]) false [["a"]] [0] = (true, []) :=
  (append_error_reporting (Except.ok [["a"], ["b"]]) false [["a"]] [0]).2.2 (by decide)

/-! ## Claim C5: the bi-weekly schedule gate -/

/-- C5: `should_check_emails` is true exactly on a Tuesday whose floored
week offset from the reference Tuesday is even, at 11:20 or 12:00
sharp; and the spec's four examples (Tuesday of the reference week at
11:20 → true, Tuesday one week later at 11:20 → false, Wednesday →
false, Tuesday of the reference week at 11:21 → false), plus the 12:00
check.  Floor division makes the parity correct before the reference
date as well. -/
theorem schedule_gate_spec :
    (∀ (d : Int) (h m : Nat),
      should_check_emails d h m = true ↔
        (weekdayOf d = 1 ∧ (d.fdiv 7).fmod 2 = 0 ∧
          ((h = 11 ∧ m = 20) ∨ (h = 12 ∧ m = 0)))) ∧
    should_check_emails 0 11 20 = true ∧
    should_check_emails 7 11 20 = false ∧
    should_check_emails 1 11 20 = false ∧
    should_check_emails 0 11 21 = false ∧
    should_check_emails 0 12 0 = true ∧
    should_check_emails (-14) 11 20 = true ∧
    should_check_emails (-7) 11 20 = false := by
  refine ⟨?_, by decide, by decide, by decide, by decide, by decide, by decide, by decide⟩
  intro d h m
  unfold should_check_emails is_target_tuesday weekdayOf
  by_cases h1 : (1 + d).fmod 7 = 1
  · by_cases h2 : (d.fdiv 7).fmod 2 = 0
    · by_cases h3 : h = 11 ∧ m = 20
      · simp [h1, h2, h3]
      · by_cases h4 : h = 12 ∧ m = 0 <;> simp [h1, h2, h3, h4]
    · simp [h1, h2]
  · simp [h1]

/-! ## Claim C4: the header-row heuristic -/

/-- C4 counterexample: the first existing row `["x", "id"]` with key
column 0 has no header-looking cell at a key column position (`"x"`),
yet the code still excludes it from key extraction, because the `any`
ranges over every cell of the row and finds `"id"` at position 1. -/
theorem header_skip_counterexample :
    specKeyColumnHeader [0] ["x", "id"] = false ∧
    rowSeedKey [0] ["x", "id"] = some ["x"] ∧
    seenFromExisting [0] [["x", "id"], ["a", "b"]] = [["a"]] := by
  decide

/-- C4 (amended): the first existing row is excluded from seen-key
extraction if and only if there is more than one existing row and the
heuristic fires, where the heuristic is: the row is longer than the
maximum key column index AND some cell anywhere in the row contains the
case-insensitive substring "lead" or "id".  A single-row destination is
never treated as header-only. -/
theorem header_skip_characterization (uc : List Nat) (r0 k : List String)
    (rest : List (List String)) (hk : rowSeedKey uc r0 = some k) :
    seenFromExisting uc (r0 :: rest) =
      (if rest = [] ∨ rowIsHeader uc r0 = false
        then k :: rest.filterMap (rowSeedKey uc)
        else rest.filterMap (rowSeedKey uc)) ∧
    (rowIsHeader uc r0 = true ↔
      maxKey uc < r0.length ∧ ∃ c ∈ r0, isHeaderCell c = true) := by
  constructor
  · by_cases hr : rest = []
    · by_cases hh : rowIsHeader uc r0 = true <;> simp [seenFromExisting, hr, hh, hk]
    · by_cases hh : rowIsHeader uc r0 = true <;> simp [seenFromExisting, hr, hh, hk]
  · simp [rowIsHeader, List.any_eq_true]

/-- Witness for C4 (amended) at the concrete first row `["a"]` with a
second row present. -/
theorem header_skip_characterization_witness :
    seenFromExisting [0] [["a"], ["b"]] =
      (if [["b"]] = ([] : List (List String)) ∨ rowIsHeader [0] ["a"] = false
        then ["a"] :: [["b"]].filterMap (rowSeedKey [0])
        else [["b"]].filterMap (rowSeedKey [0])) ∧
    (rowIsHeader [0] ["a"] = true ↔
      maxKey [0] < (["a"] : List String).length ∧ ∃ c ∈ (["a"] : List String), isHeaderCell c = true) :=
  header_skip_characterization [0] ["a"] ["a"] [["b"]] (by decide)

/-! ## Claim C8: seeding skips of existing rows -/

/-- C8 counterexample: with key columns `[0, 1]`, the existing row
`["", ""]` has the all-empty key `("", "")`, yet it IS seeded into the
seen set: the code's guard `key != ('',)` only catches the width-one
empty tuple. -/
theorem seed_allempty_counterexample :
    (∀ c ∈ keyOf [0, 1] ["", ""], c = "") ∧
    keyOf [0, 1] ["", ""] ∈ seenFromExisting [0, 1] [["", ""], ["a", "b"]] := by
  decide

/-- C8 (amended): when seeding the seen-key set, an existing row is
skipped exactly when it is not longer than the maximum key column
index, or the key column list is empty (the falsy tuple), or its key is
the single-component empty tuple `('',)`; in particular, for key width
at least two, every sufficiently long row is seeded — including rows
whose key components are all empty. -/
theorem seed_skip_characterization (uc : List Nat) (row : List String) :
    (rowSeedKey uc row = none ↔
      row.length ≤ maxKey uc ∨ uc = [] ∨ keyOf uc row = [""]) ∧
    (2 ≤ uc.length → maxKey uc < row.length →
      rowSeedKey uc row = some (keyOf uc row)) := by
  constructor
  · by_cases h1 : maxKey uc < row.length
    · by_cases h2 : keyOf uc row ≠ [] ∧ keyOf uc row ≠ [""]
      · simp only [rowSeedKey, if_pos h1, if_pos h2]
        constructor
        · intro h; exact absurd h (by simp)
        · rintro (h | h | h)
          · exact absurd h1 (not_lt.mpr h)
          · exact absurd (show keyOf uc row = [] by simp [keyOf, h]) h2.1
          · exact absurd h h2.2
      · have hnone : rowSeedKey uc row = none := by
          simp only [rowSeedKey, if_pos h1]
          rw [if_neg h2]
        rw [hnone]
        push_neg at h2
        constructor
        · intro _
          by_cases h3 : keyOf uc row = []
          · have huc : uc = [] := by simpa [keyOf] using h3
            exact Or.inr (Or.inl huc)
          · exact Or.inr (Or.inr (h2 h3))
        · intro _; rfl
    · have hnone : rowSeedKey uc row = none := by simp [rowSeedKey, h1]
      rw [hnone]
      simp only [not_lt] at h1
      constructor
      · intro _; exact Or.inl h1
      · intro _; rfl
  · intro h2 hlt
    apply rowSeedKey_of_valid uc row
    · intro h; rw [h] at h2; simp at h2
    · exact hlt
    · intro h
      have := keyOf_length uc row
      rw [h] at this
      simp at this
      omega

/-- Witness for C8 (amended): the width-two all-empty key of the row
`["", ""]` is seeded. -/
theorem seed_skip_characterization_witness :
    rowSeedKey [0, 1] ["", ""] = some (keyOf [0, 1] ["", ""]) :=
  (seed_skip_characterization [0, 1] ["", ""]).2 (by decide) (by decide)

/-! ## Claim C9: the empty-key guard and incoming rows -/

/-- C9 counterexample: the claim does not hold for key widths above
one.  With key columns `[0, 1]` and a destination already containing
the all-empty-keyed row `["", ""]`, that key IS seeded (the guard only
catches `('',)`), so the identical incoming row is filtered out, not
appended. -/
theorem incoming_allempty_counterexample :
    (["", ""] : List String) ∈ [["", ""], ["x", "y"]] ∧
    mergeResult [["", ""], ["x", "y"]] [["", ""]] [0, 1] = [] ∧
    destAfter [["", ""], ["x", "y"]] [["", ""]] [0, 1] = [["", ""], ["x", "y"]] := by
  decide

/-- Helper for C9: a batch row whose key is `('',)` is always kept by
the filter when no earlier batch row has that key, because `('',)` is
never a member of the seen set seeded from existing rows. -/
theorem filterNew_keeps_empty_key (uc : List Nat) (r : List String)
    (tl : List (List String)) :
    ∀ (pre : List (List String)) (seen : List (List String)),
      [""] ∉ seen → (∀ p ∈ pre, keyOf uc p ≠ [""]) → keyOf uc r = [""] →
      r ∈ filterNew uc seen (pre ++ r :: tl) := by
  intro pre
  induction pre with
  | nil =>
    intro seen hseen _ hr
    have : keyOf uc r ∉ seen := by rw [hr]; exact hseen
    simp only [List.nil_append, filterNew, if_neg this]
    exact List.mem_cons_self r _
  | cons p pre ih =>
    intro seen hseen hpre hr
    have hp : keyOf uc p ≠ [""] := hpre p (List.mem_cons_self p pre)
    have hpre2 : ∀ q ∈ pre, keyOf uc q ≠ [""] :=
      fun q hq => hpre q (List.mem_cons_of_mem p hq)
    by_cases hk : keyOf uc p ∈ seen
    · simp only [List.cons_append, filterNew, if_pos hk]
      exact ih seen hseen hpre2 hr
    · simp only [List.cons_append, filterNew, if_neg hk]
      refine List.mem_cons_of_mem p (ih (keyOf uc p :: seen) ?_ hpre2 hr)
      intro hmem
      rcases List.mem_cons.mp hmem with h | h
      · exact hp h.symm
      · exact hseen h

/-- C9 (amended): the all-empty-key guard is asymmetric only for the
width-one key `('',)`: for any destination, a batch row whose key is
`('',)` is kept and appended — even when an identical row is already
present in the destination — provided no earlier batch row also has the
key `('',)` (the first such row of the batch always qualifies).  For
wider all-empty keys the guard does not fire and the row deduplicates
normally. -/
theorem incoming_empty_key_kept (uc0 : List Nat) (dest : List (List String))
    (pre tl : List (List String)) (r : List String)
    (hpre : ∀ p ∈ pre, keyOf (effUc uc0) p ≠ [""])
    (hr : keyOf (effUc uc0) r = [""]) :
    r ∈ mergeResult dest (pre ++ r :: tl) uc0 :=
  filterNew_keeps_empty_key (effUc uc0) r tl pre
    (seenFromExisting (effUc uc0) dest)
    (empty_key_not_seen (effUc uc0) dest) hpre hr

/-- Witness for C9 (amended): the destination already holds `[""]`, and
the identical batch row is still appended. -/
theorem incoming_empty_key_kept_witness :
    ([""] : List String) ∈ mergeResult [[""]] ([] ++ [""] :: []) [0] :=
  incoming_empty_key_kept [0] [[""]] [] [] [""] (by decide) (by decide)

/-! ## Claim C10: incoming key extraction is total -/

/-- C10: key extraction from an incoming row is total for rows of any
length: every key column index at or beyond the row length contributes
the empty string, and — unlike existing rows, which are skipped when
too short — a short incoming row is not skipped: it participates in
deduplication with its padded key (here it is appended and its padded
key then filters a longer row with the same key). -/
theorem incoming_key_padding_total (uc0 : List Nat) (dest : List (List String))
    (r r' : List String) (j : Nat)
    (hj : j < (effUc uc0).length)
    (hpad : r.length ≤ (effUc uc0).getD j 0)
    (hkey : keyOf (effUc uc0) r = keyOf (effUc uc0) r')
    (hfresh : keyOf (effUc uc0) r ∉ seenFromExisting (effUc uc0) dest) :
    (keyOf (effUc uc0) r).getD j "X" = "" ∧
    mergeResult dest [r, r'] uc0 = [r] := by
  constructor
  · have hj2 : j < (keyOf (effUc uc0) r).length := by
      rw [keyOf_length]; exact hj
    rw [List.getD_eq_getElem _ _ hj2]
    simp only [keyOf, List.getElem_map]
    apply List.getD_eq_default
    rw [List.getD_eq_getElem _ _ hj] at hpad
    exact hpad
  · have hr' : keyOf (effUc uc0) r' ∈
        keyOf (effUc uc0) r :: seenFromExisting (effUc uc0) dest := by
      rw [← hkey]; exact List.mem_cons_self _ _
    simp only [mergeResult, filterNew, if_neg hfresh, if_pos hr']

/-! ## Claim C6: the row normalizer -/

/-- Reading a padded field list below index 7 is reading the original
field list: the pad entries are empty, which is also the default. -/
theorem padTo7_getD (f : List (List Char)) (j : Nat) :
    (padTo7 f).getD j [] = f.getD j [] := by
  by_cases h : j < f.length
  · exact List.getD_append f _ [] j h
  · push_neg at h
    rw [List.getD_eq_default f [] h, padTo7, List.getD_append_right f _ [] j h]
    by_cases h2 : j - f.length < 7 - f.length
    · rw [List.getD_eq_getElem _ _ (by simpa using h2)]
      simp
    · push_neg at h2
      exact List.getD_eq_default _ _ (by simpa using h2)

/-- The previous lemma in `getElem?` normal form. -/
theorem padTo7_getElem? (f : List (List Char)) (j : Nat) :
    (padTo7 f)[j]?.getD [] = f[j]?.getD [] := by
  have h := padTo7_getD f j
  simpa [List.getD_eq_getElem?_getD] using h

/-- C6: for every input line, `_process_csv_row` yields a record with
exactly the 7 named fields in the fixed positional order, and field `j`
is the whitespace-stripped `j`-th parsed field — the empty string when
the parse yields fewer than `j + 1` fields (padding), while parsed
fields beyond index 6 never reach the record (extras ignored). -/
theorem row_normalizer_shape (line : List Char) :
    (recFields (process_csv_row line)).length = 7 ∧
    ∀ j, j < 7 →
      (recFields (process_csv_row line)).getD j ['X'] =
        stripChars ((parseCsvLine line).getD j []) := by
  constructor
  · rfl
  · intro j hj
    interval_cases j <;> simp [recFields, process_csv_row, padTo7_getElem?]

/-- Witness for C6 at the concrete line `"a, b"`: 7 fields, and field 1
is the stripped `" b"`. -/
theorem row_normalizer_shape_witness :
    (recFields (process_csv_row ("a, b".toList))).length = 7 ∧
    (recFields (process_csv_row ("a, b".toList))).getD 1 ['X'] =
      stripChars ((parseCsvLine ("a, b".toList)).getD 1 []) :=
  ⟨(row_normalizer_shape ("a, b".toList)).1,
   (row_normalizer_shape ("a, b".toList)).2 1 (by decide)⟩

/-! ## Claim C3: the worked attachment example -/

/-- C3 counterexample: on the spec's example attachment with cap 5 the
output has TWO records, not one.  The blank line is filtered and the
header dropped, but the line `",,,,,,"` strips to itself (commas are
not whitespace), parses to seven empty fields, and yields a second,
all-empty record. -/
theorem attachment_example_counterexample :
    (process_csv_attachment 5 (strBytes "H1,H2\n1,2,3,4,5,6,7\n\n,,,,,,")).length = 2 ∧
    (process_csv_attachment 5 (strBytes "H1,H2\n1,2,3,4,5,6,7\n\n,,,,,,")).map recFields =
      [[['1'], ['2'], ['3'], ['4'], ['5'], ['6'], ['7']],
       [[], [], [], [], [], [], []]] := by
  decide

/-- C3 (amended): for any row cap of at least 5, the example attachment
yields exactly two records: the first with fields "1" … "7" (header
dropped, blank line filtered), the second all-empty from the
`",,,,,,"` line, which is not blank and survives the filter. -/
theorem attachment_example_amended (n : Nat) (hn : 5 ≤ n) :
    (process_csv_attachment n (strBytes "H1,H2\n1,2,3,4,5,6,7\n\n,,,,,,")).map recFields =
      [[['1'], ['2'], ['3'], ['4'], ['5'], ['6'], ['7']],
       [[], [], [], [], [], [], []]] := by
  have hpre : splitOnNL (collapseDoubleQuote (removeCR (decodeUtf8Ignore
      (strBytes "H1,H2\n1,2,3,4,5,6,7\n\n,,,,,,")))) =
      ["H1,H2".toList, "1,2,3,4,5,6,7".toList, [], ",,,,,,".toList] := by decide
  simp only [process_csv_attachment]
  rw [hpre]
  norm_num
  rw [List.take_of_length_le (by simp; omega)]
  decide

/-! ## Claim C7: decoding of invalid bytes -/

/-- C7 counterexample: the byte 0xFF is not valid UTF-8, yet decoding
`[0xFF, 'A']` yields just `"A"`: no placeholder character replaces the
invalid byte — it is silently dropped, because the code decodes with
`errors='ignore'`, not `errors='replace'`. -/
theorem decode_ignore_counterexample :
    decodeUtf8Ignore [255, 65] = ['A'] ∧
    (decodeUtf8Ignore [255, 65]).length = 1 ∧
    '�' ∉ decodeUtf8Ignore [255, 65] := by
  decide

/-- C7 (amended): invalid bytes are dropped, not replaced: decoding
never aborts (the decoder is total), and an invalid lead byte such as
0xFF contributes nothing at all to the decoded text, so the whole
attachment pipeline is blind to it. -/
theorem decode_ignore_amended (maxRows : Nat) (bs : List Nat) :
    decodeUtf8Ignore (255 :: bs) = decodeUtf8Ignore bs ∧
    process_csv_attachment maxRows (255 :: bs) = process_csv_attachment maxRows bs := by
  have h : decodeUtf8Ignore (255 :: bs) = decodeUtf8Ignore bs := rfl
  exact ⟨h, by simp only [process_csv_attachment, h]⟩

/-- Witness for C10 at a concrete input: with key columns `[0, 2]` the
one-cell row `["a"]` gets the padded key `("a", "")`, is appended, and
its key filters the longer row `["a", "zz"]` with the same padded key. -/
theorem incoming_key_padding_total_witness :
    (keyOf (effUc [0, 2]) ["a"]).getD 1 "X" = "" ∧
    mergeResult [] [["a"], ["a", "zz"]] [0, 2] = [["a"]] :=
  incoming_key_padding_total [0, 2] [] ["a"] ["a", "zz"] 1
    (by decide) (by decide) (by decide) (by decide)

/-- Witness for C3 (amended) at the concrete cap 5. -/
theorem attachment_example_amended_witness :
    (process_csv_attachment 5 (strBytes "H1,H2\n1,2,3,4,5,6,7\n\n,,,,,,")).map recFields =
      [[['1'], ['2'], ['3'], ['4'], ['5'], ['6'], ['7']],
       [[], [], [], [], [], [], []]] :=
  attachment_example_amended 5 (by decide)
